import Mathlib

/-!
# Verification of the gomelon server lifecycle and request-dispatch subsystem

Shallow embedding of `server.go` (package gomelon): the method-aware HTTP
router (`DefaultServerHandler` / `defaultHTTPHandler`), the managed server
(`DefaultServer` with its connectors), the component dispatcher
(`ServerEnvironment`) and the server command (`ServerCommand.Run`).

Go strings are modelled as `List Char` (Go indexes bytes; every character
relevant here is single-byte ASCII, so char lists are byte-faithful).
`http.Handler` values are opaque: only their identity matters, so they are
modelled as natural numbers.  Go maps keyed by strings are modelled as
association lists with all distinct keys; `panic` is modelled by returning
`Except.error` carrying the panic message.
-/

namespace Gomelon

/-- Go strings, as lists of characters. -/
abbrev GoStr := List Char

/-- Go `error` values: `none` is the nil error, `some msg` a non-nil error. -/
abbrev Err := GoStr

/-- Opaque identity of an `http.Handler` value. -/
abbrev Handler := Nat

/-- Lookup in an association list modelling a Go map (`m[k]`). -/
def alookup (k : GoStr) : List (GoStr × β) → Option β
  | [] => none
  | (k', v) :: t => if k' = k then some v else alookup k t

/-- Update/insert in an association list modelling a Go map (`m[k] = v`). -/
def ainsert (k : GoStr) (v : β) : List (GoStr × β) → List (GoStr × β)
  | [] => [(k, v)]
  | (k', v') :: t => if k' = k then (k, v) :: t else (k', v') :: ainsert k v t

/-- `defaultHTTPHandler` contains handlers for the respective HTTP methods
(`handlers map[string]http.Handler`). -/
structure defaultHTTPHandler where
  handlers : List (GoStr × Handler)
deriving DecidableEq

/-- `newHTTPHandler` allocates a `defaultHTTPHandler` with an empty map. -/
def newHTTPHandler : defaultHTTPHandler := ⟨[]⟩

/-- Outcome of serving one HTTP request: the Go code either writes a 404
(from `http.ServeMux`'s `NotFoundHandler`), writes
"405 method not allowed" (`defaultHTTPHandler.ServeHTTP`), or delegates to
the matched registered handler. -/
inductive Response where
  | notFound
  | methodNotAllowed
  | delegated (h : Handler)
deriving DecidableEq

/-- `defaultHTTPHandler.ServeHTTP`: looks the request method up in the verb
map; missing method means status 405, otherwise the request is delegated to
the registered handler. -/
def defaultHTTPHandler.ServeHTTP (node : defaultHTTPHandler) (method : GoStr) : Response :=
  match alookup method node.handlers with
  | none => .methodNotAllowed
  | some h => .delegated h

/-- `DefaultServerHandler` extends `http.ServeMux` to support HTTP methods.
In Go the struct holds both a `*http.ServeMux` and a
`handlers map[string]*defaultHTTPHandler`; `Handle` always registers the same
`*defaultHTTPHandler` node under the same pattern in both, and later verb
additions mutate that shared node, so the two tables always hold the same
pattern-to-node mapping.  The single field `handlers` here represents both. -/
structure DefaultServerHandler where
  pathPrefix : GoStr
  handlers : List (GoStr × defaultHTTPHandler)
deriving DecidableEq

/-- `NewServerHandler` allocates a `DefaultServerHandler` with a fresh
`http.ServeMux` and an empty handlers map (and empty path prefix). -/
def NewServerHandler : DefaultServerHandler := ⟨[], []⟩

/-- The message of the Go `panic` raised on duplicate route registration:
`"http: multiple registrations for " + pattern`. -/
def panicMsg (pat : GoStr) : GoStr := "http: multiple registrations for ".toList ++ pat

/-- `DefaultServerHandler.Handle` registers `handler` for `method` under
`pattern`: prepends the current path prefix, then either panics (modelled as
`Except.error`) when the (pattern, method) pair is already registered, adds
the method to the existing pattern node, or creates a fresh node and
registers it with the `ServeMux`. -/
def DefaultServerHandler.Handle (sh : DefaultServerHandler) (method pat : GoStr)
    (handler : Handler) : Except GoStr DefaultServerHandler :=
  let key := sh.pathPrefix ++ pat
  match alookup key sh.handlers with
  | some h =>
    match alookup method h.handlers with
    | some _ => .error (panicMsg key)
    | none =>
      .ok { sh with handlers := ainsert key ⟨ainsert method handler h.handlers⟩ sh.handlers }
  | none =>
    .ok { sh with handlers := ainsert key ⟨[(method, handler)]⟩ sh.handlers }

/-- `DefaultServerHandler.PathPrefix` returns the server root context path. -/
def DefaultServerHandler.PathPrefix (sh : DefaultServerHandler) : GoStr := sh.pathPrefix

/-- `DefaultServerHandler.SetPathPrefix`: sets the root context path,
removing a trailing slash (`if l > 0 && prefix[l-1] == '/' { prefix[0:l-1] }`). -/
def DefaultServerHandler.SetPathPrefix (sh : DefaultServerHandler) (pfx : GoStr) :
    DefaultServerHandler :=
  if pfx.getLast? = some '/' then { sh with pathPrefix := pfx.dropLast }
  else { sh with pathPrefix := pfx }

/-- `pathMatch` from `net/http`'s `ServeMux` (the underlying path-matcher the
router registers its verb-dispatch nodes with): an empty pattern matches
nothing; a pattern not ending in '/' matches only the identical path; a
pattern ending in '/' matches every path it is a prefix of. -/
def pathMatch (pat path : GoStr) : Bool :=
  if pat = [] then false
  else if pat.getLast? = some '/' then pat.isPrefixOf path
  else pat = path

/-- `ServeMux.match`: among all registered patterns matching the path, the
longest one wins; `none` when no pattern matches (the mux then serves its
`NotFoundHandler`, status 404). -/
def muxMatch : List (GoStr × defaultHTTPHandler) → GoStr → Option (GoStr × defaultHTTPHandler)
  | [], _ => none
  | (k, v) :: t, path =>
    match muxMatch t path with
    | none => if pathMatch k path then some (k, v) else none
    | some (k', v') =>
      if pathMatch k path ∧ k'.length < k.length then some (k, v) else some (k', v')

/-- `DefaultServerHandler.ServeHTTP` delegates to the `ServeMux`, which
resolves the path to the registered `defaultHTTPHandler` node (404 when no
pattern matches) and that node then dispatches on the request method. -/
def DefaultServerHandler.ServeHTTP (sh : DefaultServerHandler) (method path : GoStr) : Response :=
  match muxMatch sh.handlers path with
  | none => .notFound
  | some (_, node) => node.ServeHTTP method

/-- State of a `net.Listener` after it has been created: a Go TCP listener
can be closed once; closing it again returns a non-nil
"use of closed network connection" error (without panicking). -/
structure goListener where
  closed : Bool
deriving DecidableEq

/-- `net.Listener.Close`: returns nil and marks the listener closed on the
first call; returns a non-nil error on an already-closed listener. -/
def goListener.Close (l : goListener) : Option Err × goListener :=
  if l.closed then (some "use of closed network connection".toList, l)
  else (none, { closed := true })

/-- `DefaultServerConnector`: the `listener` field is nil before `Start`
has created it. -/
structure DefaultServerConnector where
  listener : Option goListener
deriving DecidableEq

/-- `DefaultServerConnector.Stop` closes the listener: when the listener is
nil (connector never started) it does nothing and returns nil; otherwise it
returns the result of `listener.Close()`. -/
def DefaultServerConnector.Stop (c : DefaultServerConnector) :
    Option Err × DefaultServerConnector :=
  match c.listener with
  | none => (none, c)
  | some l =>
    let r := l.Close
    (r.1, { listener := some r.2 })

/-- `DefaultServer` holds its connectors. -/
structure DefaultServer where
  Connectors : List DefaultServerConnector
deriving DecidableEq

/-- One event observed by `DefaultServer.Start`'s `select` loop: a message on
`errorChan` (one connector goroutine's `c.Start()` result, nil or non-nil) or
a delivery on `sigChan`.  `signal.Notify(sigChan, os.Interrupt)` registers
only `os.Interrupt`, so every signal received is the interrupt. -/
inductive StartEvent where
  | connResult (e : Option Err)
  | interrupt
deriving DecidableEq

/-- The `for i := len(connectors); i > 0; i--` / `select` loop of
`DefaultServer.Start`, over the sequence of events as they are observed.
The outer `Option` models blocking: `none` means the loop is still waiting
on a channel when the event list runs out; `some r` means `Start` returned
with Go result `r` (`r = none` is a nil return). -/
def startLoop : Nat → List StartEvent → Option (Option Err)
  | 0, _ => some none
  | _ + 1, [] => none
  | i + 1, ev :: rest =>
    match ev with
    | .connResult (some e) => some (some e)
    | .connResult none => startLoop i rest
    | .interrupt => some none

/-- `DefaultServer.Start` launches one goroutine per connector feeding
`errorChan` and then runs the countdown `select` loop; the parameter
`events` is the order in which channel messages are observed. -/
def DefaultServer.Start (server : DefaultServer) (events : List StartEvent) :
    Option (Option Err) :=
  startLoop server.Connectors.length events

/-- The body of `DefaultServer.Stop`'s loop: stop each connector in order,
keeping the updated connector states and logging (collecting) a warning for
each connector whose `Stop` returned a non-nil error. -/
def stopAll : List DefaultServerConnector → List DefaultServerConnector × List Err
  | [] => ([], [])
  | c :: t =>
    let r := c.Stop
    let rest := stopAll t
    match r.1 with
    | some e => (r.2 :: rest.1, e :: rest.2)
    | none => (r.2 :: rest.1, rest.2)

/-- `DefaultServer.Stop` iterates the connectors in order, logs a warning for
every connector whose stop failed, and returns nil unconditionally.  The
result is (returned error, updated server, warnings logged in order). -/
def DefaultServer.Stop (server : DefaultServer) :
    Option Err × DefaultServer × List Err :=
  let r := stopAll server.Connectors
  (none, ⟨r.1⟩, r.2)

/-- A component exposing an HTTP endpoint: the `Resource` interface provides
`Method()`, `Path()` and (via `%T`) a concrete type name. -/
structure Resource where
  method : GoStr
  path : GoStr
  typeName : GoStr
deriving DecidableEq

/-- A registered component (`interface{}` in Go): either a value whose
dynamic type implements the `Resource` interface, or any other value (only
its concrete type name is relevant, for the warning log). -/
inductive Component where
  | resource (r : Resource)
  | plain (typeName : GoStr)
deriving DecidableEq

/-- The type assertion `component.(Resource)`. -/
def Component.asResource : Component → Option Resource
  | .resource r => some r
  | .plain _ => none

/-- `ServerEnvironment`: registered components (in registration order) and
the ordered chain of resource handlers.  A resource handler's `Handle`
method is modelled by the claim predicate it computes: `true` means the
handler claims (and wires) the component.  The wiring side effect (e.g.
route registration on the router) is not needed by the dispatch claims. -/
structure ServerEnvironment (κ : Type) where
  components : List κ
  resourceHandlers : List (κ → Bool)

/-- `ServerEnvironment.Register` appends components in order. -/
def ServerEnvironment.Register (env : ServerEnvironment κ) (cs : List κ) :
    ServerEnvironment κ :=
  { env with components := env.components ++ cs }

/-- `ServerEnvironment.AddResourceHandler` appends handlers to the chain. -/
def ServerEnvironment.AddResourceHandler (env : ServerEnvironment κ) (hs : List (κ → Bool)) :
    ServerEnvironment κ :=
  { env with resourceHandlers := env.resourceHandlers ++ hs }

/-- The loop of `ServerEnvironment.handle`:
`for i := len(resourceHandlers) - 1; i >= 0; i--`, returning the index of
the first handler (counting down from the last-added one) whose `Handle`
returns true.  The fuel argument is `i + 1` for the index `i` currently
tried. -/
def goHandleLoop {κ : Type} (hs : List (κ → Bool)) (c : κ) : Nat → Option Nat
  | 0 => none
  | i + 1 => if hs.getD i (fun _ => false) c then some i else goHandleLoop hs c i

/-- `ServerEnvironment.handle` walks the resource-handler chain last-added
first; `some i` means handler `i` claimed (wired) the component, `none`
means no handler claimed it and a warning identifying its type is logged. -/
def ServerEnvironment.handle (env : ServerEnvironment κ) (c : κ) : Option Nat :=
  goHandleLoop env.resourceHandlers c env.resourceHandlers.length

/-- `ServerEnvironment.onStarting` dispatches every registered component, in
registration order, through `handle`; the result records, per component,
which handler claimed it (`none` = warning logged, dispatch continues). -/
def ServerEnvironment.onStarting (env : ServerEnvironment κ) : List (κ × Option Nat) :=
  env.components.map (fun c => (c, env.handle c))

/-- One line of the endpoint listing: verb, full path
(`PathPrefix() + res.Path()`), concrete type name. -/
def formatEntry (pfx : GoStr) (r : Resource) : GoStr × GoStr × GoStr :=
  (r.method, pfx ++ r.path, r.typeName)

/-- `ServerEnvironment.logResources` prints one line per registered
component whose type assertion to `Resource` succeeds, in registration
order, using the server handler's path prefix. -/
def ServerEnvironment.logResources (pfx : GoStr) (components : List Component) :
    List (GoStr × GoStr × GoStr) :=
  components.filterMap (fun c => (c.asResource).map (formatEntry pfx))

/-- The observable steps of `ServerCommand.Run`, in execution order. -/
inductive RunStep where
  | parseConfig
  | buildEnv
  | buildServer
  | printBanner
  | runBundles
  | runApp
  | setStarting
  | serverStart
  | serverStop
  | setStopped
deriving DecidableEq

/-- The fallible collaborators of `ServerCommand.Run`: the result of each
phase (`none` = success). -/
structure ServerCommandEnv where
  configErr : Option Err
  envErr : Option Err
  buildErr : Option Err
  bundlesErr : Option Err
  appErr : Option Err
  startErr : Option Err
deriving DecidableEq

/-- `ServerCommand.Run`: parse configuration, create environment, build
server, print banner, run bundles, run application, then
`setStarting`; `defer setStopped` and `defer Server.Stop()` are registered
in that order, so on exit they run in LIFO order (stop, then stopped)
after `Server.Start()` returns.  Every failing phase logs and returns its
error immediately.  The result is the step trace and the returned error. -/
def ServerCommand.Run (e : ServerCommandEnv) : List RunStep × Option Err :=
  match e.configErr with
  | some err => ([.parseConfig], some err)
  | none =>
  match e.envErr with
  | some err => ([.parseConfig, .buildEnv], some err)
  | none =>
  match e.buildErr with
  | some err => ([.parseConfig, .buildEnv, .buildServer], some err)
  | none =>
  match e.bundlesErr with
  | some err => ([.parseConfig, .buildEnv, .buildServer, .printBanner, .runBundles], some err)
  | none =>
  match e.appErr with
  | some err =>
    ([.parseConfig, .buildEnv, .buildServer, .printBanner, .runBundles, .runApp], some err)
  | none =>
    ([.parseConfig, .buildEnv, .buildServer, .printBanner, .runBundles, .runApp,
      .setStarting, .serverStart, .serverStop, .setStopped], e.startErr)

/-- First non-nil error in a list of phase results. -/
def firstSome : List (Option Err) → Option Err
  | [] => none
  | some e :: _ => some e
  | none :: t => firstSome t


/-! ## Association-list lemmas -/

/-- The keys of an association list (a Go map has all-distinct keys). -/
def akeys (l : List (GoStr × β)) : List GoStr := l.map Prod.fst

theorem alookup_ainsert_self (k : GoStr) (v : β) (l : List (GoStr × β)) :
    alookup k (ainsert k v l) = some v := by
  induction l with
  | nil => simp [ainsert, alookup]
  | cons p t ih =>
    obtain ⟨p1, p2⟩ := p
    by_cases h : p1 = k
    · simp [ainsert, alookup, h]
    · simp [ainsert, alookup, h, ih]

theorem alookup_ainsert_ne (k q : GoStr) (v : β) (l : List (GoStr × β)) (hne : q ≠ k) :
    alookup q (ainsert k v l) = alookup q l := by
  have hkq : ¬ (k = q) := fun h => hne h.symm
  induction l with
  | nil => simp [ainsert, alookup, hkq]
  | cons p t ih =>
    obtain ⟨p1, p2⟩ := p
    by_cases h : p1 = k
    · subst h
      simp [ainsert, alookup, hkq]
    · simp [ainsert, alookup, h, ih]

theorem alookup_mem {l : List (GoStr × β)} {k : GoStr} {v : β}
    (h : alookup k l = some v) : (k, v) ∈ l := by
  induction l with
  | nil => simp [alookup] at h
  | cons p t ih =>
    obtain ⟨p1, p2⟩ := p
    by_cases hp : p1 = k
    · subst hp
      simp only [alookup, if_true, eq_self_iff_true, Option.some.injEq] at h
      subst h
      exact List.mem_cons_self _ _
    · simp only [alookup, if_neg hp] at h
      exact List.mem_cons_of_mem _ (ih h)

theorem akeys_ainsert_of_lookup_some {w : β} (v : β) :
    ∀ {l : List (GoStr × β)} {k : GoStr}, alookup k l = some w →
      akeys (ainsert k v l) = akeys l := by
  intro l
  induction l with
  | nil => intro k h; simp [alookup] at h
  | cons p t ih =>
    intro k h
    obtain ⟨p1, p2⟩ := p
    by_cases hp : p1 = k
    · subst hp
      simp [ainsert, akeys]
    · simp only [alookup, if_neg hp] at h
      have htail := ih h
      simp only [akeys] at htail
      simp [ainsert, akeys, hp, htail]

theorem akeys_ainsert_of_lookup_none (v : β) :
    ∀ {l : List (GoStr × β)} {k : GoStr}, alookup k l = none →
      akeys (ainsert k v l) = akeys l ++ [k] := by
  intro l
  induction l with
  | nil => intro k _; simp [ainsert, akeys]
  | cons p t ih =>
    intro k h
    obtain ⟨p1, p2⟩ := p
    by_cases hp : p1 = k
    · simp [alookup, hp] at h
    · simp only [alookup, if_neg hp] at h
      have htail := ih h
      simp only [akeys] at htail
      simp [ainsert, akeys, hp, htail]

theorem alookup_eq_none_of_not_mem_akeys :
    ∀ {l : List (GoStr × β)} {k : GoStr}, k ∉ akeys l → alookup k l = none := by
  intro l
  induction l with
  | nil => intro k _; rfl
  | cons p t ih =>
    intro k h
    obtain ⟨p1, p2⟩ := p
    simp only [akeys, List.map_cons, List.mem_cons, not_or] at h
    have h1 : ¬ (p1 = k) := fun hh => h.1 hh.symm
    simp only [alookup, if_neg h1]
    exact ih h.2

/-! ## Path-matcher lemmas -/

theorem pathMatch_refl {p : GoStr} (hp : p ≠ []) : pathMatch p p = true := by
  unfold pathMatch
  by_cases h : p.getLast? = some '/'
  · simp [hp, h, List.isPrefixOf_iff_prefix]
  · simp [hp, h]

theorem pathMatch_length_le {k p : GoStr} (h : pathMatch k p = true) :
    k.length ≤ p.length := by
  unfold pathMatch at h
  by_cases hk : k = []
  · simp [hk] at h
  by_cases hl : k.getLast? = some '/'
  · simp only [if_neg hk, if_pos hl] at h
    rw [List.isPrefixOf_iff_prefix] at h
    exact h.length_le
  · simp only [if_neg hk, if_neg hl, decide_eq_true_eq] at h
    exact le_of_eq (congrArg List.length h)

theorem pathMatch_length_lt {k p : GoStr} (h : pathMatch k p = true) (hne : k ≠ p) :
    k.length < p.length := by
  rcases Nat.lt_or_ge k.length p.length with hlt | hge
  · exact hlt
  unfold pathMatch at h
  by_cases hk : k = []
  · simp [hk] at h
  by_cases hl : k.getLast? = some '/'
  · simp only [if_neg hk, if_pos hl] at h
    rw [List.isPrefixOf_iff_prefix] at h
    exact absurd (h.eq_of_length (Nat.le_antisymm h.length_le hge)) hne
  · simp only [if_neg hk, if_neg hl, decide_eq_true_eq] at h
    exact absurd h hne

theorem muxMatch_mem :
    ∀ {l : List (GoStr × defaultHTTPHandler)} {path k : GoStr} {v : defaultHTTPHandler},
      muxMatch l path = some (k, v) → (k, v) ∈ l ∧ pathMatch k path = true := by
  intro l
  induction l with
  | nil => intro path k v h; simp [muxMatch] at h
  | cons q t ih =>
    intro path k v h
    obtain ⟨q1, q2⟩ := q
    rcases hm : muxMatch t path with _ | ⟨k', v'⟩ <;> simp only [muxMatch, hm] at h
    · by_cases hp : pathMatch q1 path = true
      · rw [if_pos hp] at h
        cases h
        exact ⟨List.mem_cons_self _ _, hp⟩
      · rw [if_neg hp] at h
        cases h
    · by_cases hc : pathMatch q1 path = true ∧ k'.length < q1.length
      · rw [if_pos hc] at h
        cases h
        exact ⟨List.mem_cons_self _ _, hc.1⟩
      · rw [if_neg hc] at h
        cases h
        obtain ⟨hmem, hpm⟩ := ih hm
        exact ⟨List.mem_cons_of_mem _ hmem, hpm⟩

theorem muxMatch_eq_none_iff (l : List (GoStr × defaultHTTPHandler)) (path : GoStr) :
    muxMatch l path = none ↔ ∀ kv ∈ l, pathMatch kv.1 path = false := by
  induction l with
  | nil => simp [muxMatch]
  | cons q t ih =>
    obtain ⟨q1, q2⟩ := q
    rcases hm : muxMatch t path with _ | ⟨k', v'⟩ <;> simp only [muxMatch, hm]
    · have htail : ∀ kv ∈ t, pathMatch kv.1 path = false := ih.1 hm
      by_cases hp : pathMatch q1 path = true
      · rw [if_pos hp]
        constructor
        · intro h
          cases h
        · intro h
          have := h (q1, q2) (List.mem_cons_self _ _)
          rw [hp] at this
          cases this
      · rw [if_neg hp]
        constructor
        · intro _ kv hkv
          rcases List.mem_cons.1 hkv with rfl | hkv'
          · simpa using hp
          · exact htail kv hkv'
        · intro _
          rfl
    · have hmem := muxMatch_mem hm
      constructor
      · intro h
        by_cases hc : pathMatch q1 path = true ∧ k'.length < q1.length
        · rw [if_pos hc] at h
          cases h
        · rw [if_neg hc] at h
          cases h
      · intro h
        have := h (k', v') (List.mem_cons_of_mem _ hmem.1)
        rw [hmem.2] at this
        cases this

theorem muxMatch_self :
    ∀ {l : List (GoStr × defaultHTTPHandler)} {p : GoStr} {node : defaultHTTPHandler},
      (akeys l).Nodup → p ≠ [] → alookup p l = some node →
      muxMatch l p = some (p, node) := by
  intro l
  induction l with
  | nil => intro p node _ _ hl; simp [alookup] at hl
  | cons q t ih =>
    intro p node hnd hp hl
    obtain ⟨q1, q2⟩ := q
    have hnd' : q1 ∉ akeys t ∧ (akeys t).Nodup := by
      have hcons : akeys ((q1, q2) :: t) = q1 :: akeys t := rfl
      rw [hcons] at hnd
      exact List.nodup_cons.1 hnd
    by_cases hq : q1 = p
    · subst hq
      simp only [alookup, if_true, eq_self_iff_true, Option.some.injEq] at hl
      subst hl
      rcases hm : muxMatch t q1 with _ | ⟨k', v'⟩ <;> simp only [muxMatch, hm]
      · rw [if_pos (pathMatch_refl hp)]
      · obtain ⟨hmem, hpm⟩ := muxMatch_mem hm
        have hk'ne : k' ≠ q1 := by
          intro hk
          subst hk
          exact hnd'.1 (List.mem_map_of_mem Prod.fst hmem)
        have hlt : k'.length < q1.length := pathMatch_length_lt hpm hk'ne
        rw [if_pos ⟨pathMatch_refl hp, hlt⟩]
    · simp only [alookup, if_neg hq] at hl
      have hm := ih hnd'.2 hp hl
      simp only [muxMatch, hm]
      have hnc : ¬ (pathMatch q1 p = true ∧ p.length < q1.length) := by
        rintro ⟨hpm, hlt⟩
        exact absurd (pathMatch_length_le hpm) (Nat.not_le.2 hlt)
      rw [if_neg hnc]


/-! ## Dispatch-loop lemmas -/

theorem goHandleLoop_some {κ : Type} (hs : List (κ → Bool)) (c : κ) :
    ∀ {i j : Nat}, goHandleLoop hs c i = some j →
      j < i ∧ hs.getD j (fun _ => false) c = true ∧
      ∀ k, j < k → k < i → hs.getD k (fun _ => false) c = false := by
  intro i
  induction i with
  | zero => intro j h; simp [goHandleLoop] at h
  | succ i ih =>
    intro j h
    simp only [goHandleLoop] at h
    by_cases hc : hs.getD i (fun _ => false) c = true
    · rw [if_pos hc] at h
      cases h
      refine ⟨Nat.lt_succ_self _, hc, ?_⟩
      intro k hjk hki
      exact absurd hjk (Nat.not_lt.2 (Nat.lt_succ_iff.1 hki))
    · rw [if_neg hc] at h
      obtain ⟨hji, hj, hrest⟩ := ih h
      refine ⟨Nat.lt_succ_of_lt hji, hj, ?_⟩
      intro k hjk hki
      rcases Nat.lt_succ_iff_lt_or_eq.1 hki with hki' | rfl
      · exact hrest k hjk hki'
      · exact Bool.eq_false_iff.2 hc

theorem goHandleLoop_none {κ : Type} (hs : List (κ → Bool)) (c : κ) :
    ∀ {i : Nat}, goHandleLoop hs c i = none →
      ∀ k, k < i → hs.getD k (fun _ => false) c = false := by
  intro i
  induction i with
  | zero => intro _ k hk; exact absurd hk (Nat.not_lt_zero _)
  | succ i ih =>
    intro h k hk
    simp only [goHandleLoop] at h
    by_cases hc : hs.getD i (fun _ => false) c = true
    · rw [if_pos hc] at h
      cases h
    · rw [if_neg hc] at h
      rcases Nat.lt_succ_iff_lt_or_eq.1 hk with hk' | rfl
      · exact ih h k hk'
      · exact Bool.eq_false_iff.2 hc

/-! ## Stop / start loop lemmas -/

theorem stopAll_eq (cs : List DefaultServerConnector) :
    stopAll cs = (cs.map (fun c => c.Stop.2), cs.filterMap (fun c => c.Stop.1)) := by
  induction cs with
  | nil => rfl
  | cons c t ih =>
    simp only [stopAll, ih]
    rcases hr : c.Stop.1 with _ | e <;> simp [List.filterMap_cons, hr]

theorem startLoop_all_nil :
    ∀ (n : Nat) (rest : List StartEvent),
      startLoop n (List.replicate n (.connResult none) ++ rest) = some none := by
  intro n
  induction n with
  | zero => intro rest; rfl
  | succ n ih =>
    intro rest
    simp only [List.replicate, List.cons_append, startLoop]
    exact ih rest

theorem startLoop_skip_nil :
    ∀ (k n : Nat) (rest : List StartEvent), k < n →
      startLoop n (List.replicate k (.connResult none) ++ rest) = startLoop (n - k) rest := by
  intro k
  induction k with
  | zero => intro n rest _; rfl
  | succ k ih =>
    intro n rest hk
    obtain ⟨m, rfl⟩ : ∃ m, n = m + 1 :=
      ⟨n - 1, (Nat.succ_pred_eq_of_pos (Nat.lt_of_le_of_lt (Nat.zero_le _) hk)).symm⟩
    rw [List.replicate_succ, List.cons_append]
    have hstep :
        startLoop (m + 1)
          (StartEvent.connResult none :: (List.replicate k (StartEvent.connResult none) ++ rest)) =
        startLoop m (List.replicate k (StartEvent.connResult none) ++ rest) := rfl
    rw [hstep, ih m rest (Nat.lt_of_succ_lt_succ hk)]
    congr 1
    omega

/-! ## getLast? / dropLast lemma -/

theorem eq_dropLast_append_of_getLast? {l : List Char} {c : Char}
    (h : l.getLast? = some c) : l = l.dropLast ++ [c] := by
  have hne : l ≠ [] := by
    intro hl
    subst hl
    simp at h
  have hlast : l.getLast hne = c := by
    rw [List.getLast?_eq_getLast l hne] at h
    exact Option.some.inj h
  conv_lhs => rw [← List.dropLast_append_getLast hne]
  rw [hlast]


/-! ## Claims -/

/-- C4: `DefaultServer.Start` waits for either as many connector results as
there are connectors or an interrupt signal: the first non-nil connector
error observed (after any number of nil results) is returned immediately,
aborting the wait without consuming any of the remaining events; an
interrupt observed first makes `Start` return nil immediately; and when
every connector reports nil, `Start` returns nil once all results are in. -/
theorem C4_start_first_error (server : DefaultServer) (e : Err) (k : Nat)
    (rest : List StartEvent) :
    (k < server.Connectors.length →
      server.Start (List.replicate k (.connResult none) ++ .connResult (some e) :: rest) =
        some (some e)) ∧
    (k < server.Connectors.length →
      server.Start (List.replicate k (.connResult none) ++ .interrupt :: rest) = some none) ∧
    server.Start (List.replicate server.Connectors.length (.connResult none) ++ rest) =
      some none := by
  refine ⟨?_, ?_, startLoop_all_nil _ rest⟩
  · intro hk
    unfold DefaultServer.Start
    rw [startLoop_skip_nil k _ _ hk]
    obtain ⟨m, hm⟩ : ∃ m, server.Connectors.length - k = m + 1 :=
      ⟨server.Connectors.length - k - 1, by omega⟩
    rw [hm]
    rfl
  · intro hk
    unfold DefaultServer.Start
    rw [startLoop_skip_nil k _ _ hk]
    obtain ⟨m, hm⟩ : ∃ m, server.Connectors.length - k = m + 1 :=
      ⟨server.Connectors.length - k - 1, by omega⟩
    rw [hm]
    rfl

/-- Witness for C4: a server with one connector whose start reports a bind
error; `Start` returns exactly that error. -/
theorem C4_start_first_error_w :
    DefaultServer.Start ⟨[⟨none⟩]⟩
        [.connResult (some "listen tcp: address already in use".toList)] =
      some (some "listen tcp: address already in use".toList) :=
  (C4_start_first_error ⟨[⟨none⟩]⟩ "listen tcp: address already in use".toList 0 []).1
    (by decide)

/-- C5: a managed server with zero connectors starts and returns nil
immediately: the countdown loop runs zero iterations, so the result is a
nil return whatever (if anything) is ever observed on the error or signal
channels — no connector task is waited for and no interrupt is needed. -/
theorem C5_start_zero_connectors (events : List StartEvent) :
    DefaultServer.Start ⟨[]⟩ events = some none := rfl

/-- C6: `DefaultServer.Stop` stops every connector in registration order;
a connector whose stop fails contributes only a logged warning and does not
prevent stopping the rest; the returned error is nil unconditionally; a
second `Stop` call also returns nil (all the operations are total, so no
panic is possible); and stopping a connector whose listener is nil (stop
before start) is a no-op returning nil. -/
theorem C6_stop_best_effort (server : DefaultServer) :
    server.Stop.1 = none ∧
    server.Stop.2.1.Connectors = server.Connectors.map (fun c => c.Stop.2) ∧
    server.Stop.2.2 = server.Connectors.filterMap (fun c => c.Stop.1) ∧
    server.Stop.2.1.Stop.1 = none ∧
    (∀ c : DefaultServerConnector, c.listener = none → c.Stop = (none, c)) := by
  refine ⟨rfl, ?_, ?_, rfl, ?_⟩
  · simp [DefaultServer.Stop, stopAll_eq]
  · simp [DefaultServer.Stop, stopAll_eq]
  · intro c h
    simp [DefaultServerConnector.Stop, h]

/-- Witness for C6: stopping a never-started connector is a nil no-op. -/
theorem C6_stop_best_effort_w :
    DefaultServerConnector.Stop ⟨none⟩ = (none, ⟨none⟩) :=
  (C6_stop_best_effort ⟨[]⟩).2.2.2.2 ⟨none⟩ rfl

/-- Counterexample to C7 as stated: `SetPathPrefix` removes at most one
trailing slash, so for the input "a//" the subsequent `PathPrefix` result
"a/" still ends in a trailing '/' character. -/
theorem C7_setPathStrip_cex :
    (NewServerHandler.SetPathPrefix "a//".toList).PathPrefix = "a/".toList ∧
    ((NewServerHandler.SetPathPrefix "a//".toList).PathPrefix).getLast? = some '/' := by
  decide

/-- C7 amended: `PathPrefix` returns the string passed to `SetPathPrefix`
with one trailing slash (if present) stripped; in particular, whenever the
configured string does not end in two slashes the result has no trailing
'/' character. -/
theorem C7_setPathStrip_amended (sh : DefaultServerHandler) (pfx : GoStr) :
    (sh.SetPathPrefix pfx).PathPrefix =
      (if pfx.getLast? = some '/' then pfx.dropLast else pfx) ∧
    (List.isSuffixOf "//".toList pfx = false →
      ((sh.SetPathPrefix pfx).PathPrefix).getLast? ≠ some '/') := by
  constructor
  · unfold DefaultServerHandler.SetPathPrefix DefaultServerHandler.PathPrefix
    by_cases h : pfx.getLast? = some '/' <;> simp [h]
  · intro hss hlast
    by_cases h : pfx.getLast? = some '/'
    · have hres : (sh.SetPathPrefix pfx).PathPrefix = pfx.dropLast := by
        simp [DefaultServerHandler.SetPathPrefix, DefaultServerHandler.PathPrefix, h]
      rw [hres] at hlast
      have h1 : pfx = pfx.dropLast ++ ['/'] := eq_dropLast_append_of_getLast? h
      have h2 : pfx.dropLast = pfx.dropLast.dropLast ++ ['/'] :=
        eq_dropLast_append_of_getLast? hlast
      have hsfx : "//".toList <:+ pfx := by
        refine ⟨pfx.dropLast.dropLast, ?_⟩
        conv_rhs => rw [h1, h2]
        rw [List.append_assoc]
        rfl
      rw [← List.isSuffixOf_iff_suffix] at hsfx
      rw [hss] at hsfx
      cases hsfx
    · have hres : (sh.SetPathPrefix pfx).PathPrefix = pfx := by
        simp [DefaultServerHandler.SetPathPrefix, DefaultServerHandler.PathPrefix, h]
      rw [hres] at hlast
      exact h hlast

/-- Witness for C7 amended: a prefix with a single trailing slash comes back
with no trailing slash. -/
theorem C7_setPathStrip_amended_w :
    ((NewServerHandler.SetPathPrefix "a/".toList).PathPrefix).getLast? ≠ some '/' :=
  (C7_setPathStrip_amended NewServerHandler "a/".toList).2 (by decide)

/-- Counterexample to C8 as stated: the claim puts the startup banner after
running bundles and the application run hook, but in a fully successful run
the banner step sits at index 3, before `runBundles` (index 4) and `runApp`
(index 5): the code prints the banner right after building the server. -/
theorem C8_run_order_cex :
    (ServerCommand.Run ⟨none, none, none, none, none, none⟩).1.indexOf RunStep.printBanner = 3 ∧
    (ServerCommand.Run ⟨none, none, none, none, none, none⟩).1.indexOf RunStep.runBundles = 4 ∧
    (ServerCommand.Run ⟨none, none, none, none, none, none⟩).1.indexOf RunStep.runApp = 5 ∧
    ¬ ((ServerCommand.Run ⟨none, none, none, none, none, none⟩).1.indexOf RunStep.runApp <
        (ServerCommand.Run ⟨none, none, none, none, none, none⟩).1.indexOf
          RunStep.printBanner) := by
  decide

/-- C8 amended: `ServerCommand.Run` aborts at the first failure, returning
the first non-nil phase error (configuration parse, environment build,
server build, bundles, application run hook, then server start); when all
pre-start phases succeed, the steps run in this order: parse configuration,
build environment, build server, print the startup banner, run bundles, run
the application run hook, mark the environment starting, start the server,
and on exit stop the server and mark the environment stopped — the stop and
stopped marks are guaranteed whether or not the server start failed. -/
theorem C8_run_order_amended (e : ServerCommandEnv) :
    (ServerCommand.Run e).2 =
      firstSome [e.configErr, e.envErr, e.buildErr, e.bundlesErr, e.appErr, e.startErr] ∧
    (e.configErr = none → e.envErr = none → e.buildErr = none → e.bundlesErr = none →
      e.appErr = none →
      (ServerCommand.Run e).1 =
        [.parseConfig, .buildEnv, .buildServer, .printBanner, .runBundles, .runApp,
         .setStarting, .serverStart, .serverStop, .setStopped]) ∧
    (∀ err, e.configErr = some err → (ServerCommand.Run e).1 = [.parseConfig]) ∧
    (∀ err, e.configErr = none → e.envErr = some err →
      (ServerCommand.Run e).1 = [.parseConfig, .buildEnv]) ∧
    (∀ err, e.configErr = none → e.envErr = none → e.buildErr = some err →
      (ServerCommand.Run e).1 = [.parseConfig, .buildEnv, .buildServer]) ∧
    (∀ err, e.configErr = none → e.envErr = none → e.buildErr = none →
      e.bundlesErr = some err →
      (ServerCommand.Run e).1 =
        [.parseConfig, .buildEnv, .buildServer, .printBanner, .runBundles]) ∧
    (∀ err, e.configErr = none → e.envErr = none → e.buildErr = none → e.bundlesErr = none →
      e.appErr = some err →
      (ServerCommand.Run e).1 =
        [.parseConfig, .buildEnv, .buildServer, .printBanner, .runBundles, .runApp]) := by
  obtain ⟨ce, ee, be, bue, ae, se⟩ := e
  refine ⟨?_, ?_, ?_, ?_, ?_, ?_, ?_⟩
  · cases ce <;> cases ee <;> cases be <;> cases bue <;> cases ae <;> cases se <;> rfl
  · intro h1 h2 h3 h4 h5
    subst h1; subst h2; subst h3; subst h4; subst h5
    rfl
  · intro err h1
    subst h1
    rfl
  · intro err h1 h2
    subst h1; subst h2
    rfl
  · intro err h1 h2 h3
    subst h1; subst h2; subst h3
    rfl
  · intro err h1 h2 h3 h4
    subst h1; subst h2; subst h3; subst h4
    rfl
  · intro err h1 h2 h3 h4 h5
    subst h1; subst h2; subst h3; subst h4; subst h5
    rfl

/-- Witness for C8 amended: when every phase up to the server start
succeeds and the start fails, the full step sequence runs — including the
deferred server stop and stopped mark — and the start error is returned. -/
theorem C8_run_order_amended_w :
    (ServerCommand.Run ⟨none, none, none, none, none, some "boom".toList⟩).1 =
      [.parseConfig, .buildEnv, .buildServer, .printBanner, .runBundles, .runApp,
       .setStarting, .serverStart, .serverStop, .setStopped] :=
  (C8_run_order_amended ⟨none, none, none, none, none, some "boom".toList⟩).2.1
    rfl rfl rfl rfl rfl

/-- Counterexample to C9 as stated: a component implementing `Resource`
that no resource handler claims (here the handler chain is empty, so
`handle` returns `none` and only logs a warning) still gets an endpoint
entry from `logResources` — the listing is not restricted to claimed
components. -/
theorem C9_logResources_cex :
    ServerEnvironment.handle
        (⟨[Component.resource ⟨"GET".toList, "/x".toList, "T".toList⟩], []⟩ :
          ServerEnvironment Component)
        (Component.resource ⟨"GET".toList, "/x".toList, "T".toList⟩) = none ∧
    ServerEnvironment.logResources []
        [Component.resource ⟨"GET".toList, "/x".toList, "T".toList⟩] =
      [("GET".toList, "/x".toList, "T".toList)] := ⟨rfl, rfl⟩

/-- C9 amended: after dispatch, the endpoint listing contains one entry of
verb, full path (prefix + component path) and concrete type name for every
registered component whose type assertion to `Resource` succeeds, in
registration order — regardless of whether any resource handler claimed
it — and no entry for any other component. -/
theorem C9_logResources_amended (pfx : GoStr) (comps : List Component) :
    ServerEnvironment.logResources pfx comps =
      (comps.filterMap Component.asResource).map (formatEntry pfx) ∧
    (∀ entry, entry ∈ ServerEnvironment.logResources pfx comps ↔
      ∃ c ∈ comps, ∃ r, c.asResource = some r ∧ formatEntry pfx r = entry) := by
  constructor
  · simp [ServerEnvironment.logResources, List.map_filterMap]
  · intro entry
    simp [ServerEnvironment.logResources, List.mem_filterMap, Option.map_eq_some']


/-- C3: component dispatch at the starting transition processes every
registered component exactly once, in registration order (the dispatch list
is the component list); for each component the resource-handler chain is
walked from the most-recently-added (largest index) handler down, and the
handler reported as claiming it is the first one in that walk that claims
it (every later-added handler rejects it); a component claimed by no
handler yields `none` — only a warning — and, since dispatch is a total map
over the component list, it never aborts dispatch of the others. -/
theorem C3_component_dispatch {κ : Type} (env : ServerEnvironment κ) :
    env.onStarting.map Prod.fst = env.components ∧
    (∀ (c : κ) (j : Nat), env.handle c = some j →
      ∃ f, env.resourceHandlers.get? j = some f ∧ f c = true ∧
        ∀ (k : Nat) (f' : κ → Bool), j < k → env.resourceHandlers.get? k = some f' →
          f' c = false) ∧
    (∀ c : κ, env.handle c = none → ∀ f ∈ env.resourceHandlers, f c = false) := by
  refine ⟨?_, ?_, ?_⟩
  · show List.map Prod.fst (env.components.map (fun c => (c, env.handle c))) = env.components
    rw [List.map_map]
    exact List.map_id env.components
  · intro c j h
    obtain ⟨hj, hget, hrest⟩ := goHandleLoop_some env.resourceHandlers c h
    refine ⟨env.resourceHandlers.get ⟨j, hj⟩, List.get?_eq_get hj, ?_, ?_⟩
    · rw [List.getD_eq_get?, List.get?_eq_get hj] at hget
      simpa using hget
    · intro k f' hjk hk'
      obtain ⟨hklen, hkeq⟩ := List.get?_eq_some.1 hk'
      have := hrest k hjk hklen
      rw [List.getD_eq_get?, hk'] at this
      simpa using this
  · intro c h f hf
    obtain ⟨n, hn⟩ := List.mem_iff_get?.1 hf
    obtain ⟨hnlen, _⟩ := List.get?_eq_some.1 hn
    have := goHandleLoop_none env.resourceHandlers c h n hnlen
    rw [List.getD_eq_get?, hn] at this
    simpa using this

/-- Witness for C3: two resource handlers that both claim a component; the
dispatcher reports the second (most-recently-added, index 1) as the
claimant, and every handler added after it rejects (vacuously). -/
theorem C3_component_dispatch_w :
    ∃ f,
      (⟨[0], [fun _ => true, fun _ => true]⟩ : ServerEnvironment Nat).resourceHandlers.get? 1 =
        some f ∧ f 0 = true ∧
      ∀ (k : Nat) (f' : Nat → Bool), 1 < k →
        (⟨[0], [fun _ => true, fun _ => true]⟩ :
          ServerEnvironment Nat).resourceHandlers.get? k = some f' → f' 0 = false :=
  (C3_component_dispatch ⟨[0], [fun _ => true, fun _ => true]⟩).2.1 0 1 rfl

/-- C10: `Handle` uses the prefix current at the call to form the effective
registered pattern: `SetPathPrefix` leaves the registered pattern table
completely unchanged, and a successful `Handle` changes the table only at
the key `pathPrefix ++ pattern` (which it does register), so a later
`SetPathPrefix` affects only routes registered afterwards and every
already-registered pattern keeps its verb mapping. -/
theorem C10_handle_frame (sh : DefaultServerHandler) (pfx method pat : GoStr) (hd : Handler) :
    (sh.SetPathPrefix pfx).handlers = sh.handlers ∧
    (∀ sh', sh.Handle method pat hd = Except.ok sh' →
      (∀ q, q ≠ sh.pathPrefix ++ pat → alookup q sh'.handlers = alookup q sh.handlers) ∧
      alookup (sh.pathPrefix ++ pat) sh'.handlers ≠ none) := by
  constructor
  · unfold DefaultServerHandler.SetPathPrefix
    by_cases h : pfx.getLast? = some '/' <;> simp [h]
  · intro sh' hok
    unfold DefaultServerHandler.Handle at hok
    rcases hkey : alookup (sh.pathPrefix ++ pat) sh.handlers with _ | node
    · simp only [hkey] at hok
      rw [Except.ok.injEq] at hok
      subst hok
      constructor
      · intro q hq
        exact alookup_ainsert_ne _ q _ _ hq
      · rw [alookup_ainsert_self]
        exact Option.some_ne_none _
    · rcases hmeth : alookup method node.handlers with _ | h0
      · simp only [hkey, hmeth] at hok
        rw [Except.ok.injEq] at hok
        subst hok
        constructor
        · intro q hq
          exact alookup_ainsert_ne _ q _ _ hq
        · rw [alookup_ainsert_self]
          exact Option.some_ne_none _
      · simp only [hkey, hmeth] at hok
        cases hok

/-- Witness for C10: registering "/a" on a fresh handler does not touch the
entry of any other pattern such as "/b". -/
theorem C10_handle_frame_w :
    alookup "/b".toList
        (DefaultServerHandler.mk [] [("/a".toList, ⟨[("GET".toList, 1)]⟩)]).handlers =
      alookup "/b".toList NewServerHandler.handlers :=
  ((C10_handle_frame NewServerHandler [] "GET".toList "/a".toList 1).2
      (DefaultServerHandler.mk [] [("/a".toList, ⟨[("GET".toList, 1)]⟩)]) rfl).1
    "/b".toList (by decide)


/-- C2: request dispatch never confuses 404 with 405: the response is 404
not-found exactly when no registered pattern matches the request path; when
a pattern does match (the mux resolves the path to a verb-dispatch node),
the response is 405 method-not-allowed when that node has no handler for
the request verb and is delegation to the matched handler when it does;
and the response is 405 exactly in that matched-pattern/unmatched-verb
situation. -/
theorem C2_serve_dispatch (sh : DefaultServerHandler) (method path : GoStr) :
    (sh.ServeHTTP method path = .notFound ↔
      ∀ kv ∈ sh.handlers, pathMatch kv.1 path = false) ∧
    (∀ k node, muxMatch sh.handlers path = some (k, node) →
      (alookup method node.handlers = none →
        sh.ServeHTTP method path = .methodNotAllowed) ∧
      (∀ h, alookup method node.handlers = some h →
        sh.ServeHTTP method path = .delegated h)) ∧
    (sh.ServeHTTP method path = .methodNotAllowed ↔
      ∃ k node, muxMatch sh.handlers path = some (k, node) ∧
        alookup method node.handlers = none) := by
  rcases hm : muxMatch sh.handlers path with _ | ⟨k0, node0⟩
  · have hserve : sh.ServeHTTP method path = .notFound := by
      simp [DefaultServerHandler.ServeHTTP, hm]
    refine ⟨⟨fun _ => (muxMatch_eq_none_iff _ _).1 hm, fun _ => hserve⟩, ?_, ?_⟩
    · intro k node hsome
      cases hsome
    · constructor
      · intro habs
        rw [hserve] at habs
        cases habs
      · rintro ⟨k, node, hsome, -⟩
        cases hsome
  · rcases hmeth : alookup method node0.handlers with _ | h0
    · have hserve : sh.ServeHTTP method path = .methodNotAllowed := by
        simp [DefaultServerHandler.ServeHTTP, hm, defaultHTTPHandler.ServeHTTP, hmeth]
      refine ⟨?_, ?_, ?_⟩
      · constructor
        · intro habs
          rw [hserve] at habs
          cases habs
        · intro hall
          have hnone : muxMatch sh.handlers path = none := (muxMatch_eq_none_iff _ _).2 hall
          rw [hm] at hnone
          cases hnone
      · intro k node hsome
        cases hsome
        refine ⟨fun _ => hserve, ?_⟩
        intro h hh
        rw [hmeth] at hh
        cases hh
      · exact ⟨fun _ => ⟨k0, node0, rfl, hmeth⟩, fun _ => hserve⟩
    · have hserve : sh.ServeHTTP method path = .delegated h0 := by
        simp [DefaultServerHandler.ServeHTTP, hm, defaultHTTPHandler.ServeHTTP, hmeth]
      refine ⟨?_, ?_, ?_⟩
      · constructor
        · intro habs
          rw [hserve] at habs
          cases habs
        · intro hall
          have hnone : muxMatch sh.handlers path = none := (muxMatch_eq_none_iff _ _).2 hall
          rw [hm] at hnone
          cases hnone
      · intro k node hsome
        cases hsome
        constructor
        · intro hnone
          rw [hmeth] at hnone
          cases hnone
        · intro h hh
          rw [hmeth] at hh
          cases hh
          exact hserve
      · constructor
        · intro habs
          rw [hserve] at habs
          cases habs
        · rintro ⟨k, node, hsome, hnone⟩
          cases hsome
          rw [hmeth] at hnone
          cases hnone

/-- Witness for C2: one registered route GET /a; GET /a is delegated to its
handler, POST /a is 405, GET /b is 404. -/
theorem C2_serve_dispatch_w :
    ((DefaultServerHandler.mk [] [("/a".toList, ⟨[("GET".toList, 1)]⟩)]).ServeHTTP
        "POST".toList "/a".toList = .methodNotAllowed) ∧
    ((DefaultServerHandler.mk [] [("/a".toList, ⟨[("GET".toList, 1)]⟩)]).ServeHTTP
        "GET".toList "/a".toList = .delegated 1) ∧
    ((DefaultServerHandler.mk [] [("/a".toList, ⟨[("GET".toList, 1)]⟩)]).ServeHTTP
        "GET".toList "/b".toList = .notFound) := by
  refine ⟨?_, ?_, ?_⟩
  · exact ((C2_serve_dispatch (DefaultServerHandler.mk []
        [("/a".toList, ⟨[("GET".toList, 1)]⟩)]) "POST".toList "/a".toList).2.1 "/a".toList
      ⟨[("GET".toList, 1)]⟩ (by decide)).1 (by decide)
  · exact ((C2_serve_dispatch (DefaultServerHandler.mk []
        [("/a".toList, ⟨[("GET".toList, 1)]⟩)]) "GET".toList "/a".toList).2.1 "/a".toList
      ⟨[("GET".toList, 1)]⟩ (by decide)).2 1 (by decide)
  · exact (C2_serve_dispatch (DefaultServerHandler.mk []
        [("/a".toList, ⟨[("GET".toList, 1)]⟩)]) "GET".toList "/b".toList).1.2 (by decide)

/-- C1: for `Handle` with effective pattern `pathPrefix ++ pattern`:
registering a (pattern, verb) pair that already exists panics with the
duplicate-registration message; registering a new verb on an existing
pattern succeeds, stores the verb in that pattern's verb mapping, and both
the new verb and every previously registered verb of the pattern are
independently routable to their own handlers (assuming, as the Go map
guarantees, distinct registered patterns and a non-empty effective
pattern); registering a new pattern creates a fresh verb-dispatch node
holding only the new verb and registers it under the effective pattern. -/
theorem C1_handle_registration (sh : DefaultServerHandler) (method pat : GoStr)
    (hd : Handler) :
    (∀ node h0, alookup (sh.pathPrefix ++ pat) sh.handlers = some node →
      alookup method node.handlers = some h0 →
      sh.Handle method pat hd = .error (panicMsg (sh.pathPrefix ++ pat))) ∧
    (∀ node, alookup (sh.pathPrefix ++ pat) sh.handlers = some node →
      alookup method node.handlers = none →
      (akeys sh.handlers).Nodup → sh.pathPrefix ++ pat ≠ [] →
      sh.Handle method pat hd =
        .ok { sh with handlers := (ainsert (sh.pathPrefix ++ pat)
          ⟨ainsert method hd node.handlers⟩ sh.handlers) } ∧
      ({ sh with handlers := (ainsert (sh.pathPrefix ++ pat)
          ⟨ainsert method hd node.handlers⟩ sh.handlers) } :
        DefaultServerHandler).ServeHTTP method (sh.pathPrefix ++ pat) = .delegated hd ∧
      (∀ v h0, alookup v node.handlers = some h0 →
        ({ sh with handlers := (ainsert (sh.pathPrefix ++ pat)
            ⟨ainsert method hd node.handlers⟩ sh.handlers) } :
          DefaultServerHandler).ServeHTTP v (sh.pathPrefix ++ pat) = .delegated h0)) ∧
    (alookup (sh.pathPrefix ++ pat) sh.handlers = none →
      sh.Handle method pat hd =
        .ok { sh with handlers := (ainsert (sh.pathPrefix ++ pat) ⟨[(method, hd)]⟩
          sh.handlers) } ∧
      alookup (sh.pathPrefix ++ pat)
        (ainsert (sh.pathPrefix ++ pat) ⟨[(method, hd)]⟩ sh.handlers) =
        some ⟨[(method, hd)]⟩) := by
  refine ⟨?_, ?_, ?_⟩
  · intro node h0 hkey hmeth
    simp only [DefaultServerHandler.Handle, hkey, hmeth]
  · intro node hkey hmeth hnd hne
    have hkeys : akeys (ainsert (sh.pathPrefix ++ pat) ⟨ainsert method hd node.handlers⟩
        sh.handlers) = akeys sh.handlers :=
      akeys_ainsert_of_lookup_some ⟨ainsert method hd node.handlers⟩ hkey
    have hnd' : (akeys (ainsert (sh.pathPrefix ++ pat) ⟨ainsert method hd node.handlers⟩
        sh.handlers)).Nodup := by
      rw [hkeys]
      exact hnd
    have hlook : alookup (sh.pathPrefix ++ pat)
        (ainsert (sh.pathPrefix ++ pat) ⟨ainsert method hd node.handlers⟩ sh.handlers) =
        some ⟨ainsert method hd node.handlers⟩ :=
      alookup_ainsert_self _ _ _
    have hmux := muxMatch_self hnd' hne hlook
    refine ⟨?_, ?_, ?_⟩
    · simp only [DefaultServerHandler.Handle, hkey, hmeth]
    · simp [DefaultServerHandler.ServeHTTP, hmux, defaultHTTPHandler.ServeHTTP,
        alookup_ainsert_self]
    · intro v h0 hv0
      have hvne : v ≠ method := by
        intro hv
        subst hv
        rw [hmeth] at hv0
        cases hv0
      have hvl : alookup v (ainsert method hd node.handlers) = some h0 := by
        rw [alookup_ainsert_ne _ _ _ _ hvne]
        exact hv0
      simp [DefaultServerHandler.ServeHTTP, hmux, defaultHTTPHandler.ServeHTTP, hvl]
  · intro hkey
    refine ⟨?_, alookup_ainsert_self _ _ _⟩
    simp only [DefaultServerHandler.Handle, hkey]

/-- Witness for C1: a handler with GET registered on /a.  Registering GET /a
again panics with the duplicate message; registering POST /a succeeds and
afterwards POST /a routes to the new handler while GET /a still routes to
the old one. -/
theorem C1_handle_registration_w :
    ((DefaultServerHandler.mk [] [("/a".toList, ⟨[("GET".toList, 1)]⟩)]).Handle
        "GET".toList "/a".toList 2 = .error (panicMsg ([] ++ "/a".toList))) ∧
    (({ pathPrefix := [],
        handlers := (ainsert ([] ++ "/a".toList)
          ⟨ainsert "POST".toList 2 [("GET".toList, 1)]⟩
          [("/a".toList, ⟨[("GET".toList, 1)]⟩)]) } :
      DefaultServerHandler).ServeHTTP "POST".toList ([] ++ "/a".toList) =
        .delegated 2) ∧
    (({ pathPrefix := [],
        handlers := (ainsert ([] ++ "/a".toList)
          ⟨ainsert "POST".toList 2 [("GET".toList, 1)]⟩
          [("/a".toList, ⟨[("GET".toList, 1)]⟩)]) } :
      DefaultServerHandler).ServeHTTP "GET".toList ([] ++ "/a".toList) =
        .delegated 1) := by
  refine ⟨?_, ?_, ?_⟩
  · exact (C1_handle_registration (DefaultServerHandler.mk []
        [("/a".toList, ⟨[("GET".toList, 1)]⟩)]) "GET".toList "/a".toList 2).1
      ⟨[("GET".toList, 1)]⟩ 1 (by decide) (by decide)
  · exact ((C1_handle_registration (DefaultServerHandler.mk []
        [("/a".toList, ⟨[("GET".toList, 1)]⟩)]) "POST".toList "/a".toList 2).2.1
      ⟨[("GET".toList, 1)]⟩ (by decide) (by decide) (by decide) (by decide)).2.1
  · exact ((C1_handle_registration (DefaultServerHandler.mk []
        [("/a".toList, ⟨[("GET".toList, 1)]⟩)]) "POST".toList "/a".toList 2).2.1
      ⟨[("GET".toList, 1)]⟩ (by decide) (by decide) (by decide) (by decide)).2.2
      "GET".toList 1 (by decide)

end Gomelon
